import Mathlib

/-!
A shallow embedding of `src/mdbook-spec/src/std_links.rs` (the `std_links`
mdbook preprocessor) together with theorems about it.

Modelling conventions:

* Document text is modelled as `List Char` (abbreviated `Str`); the byte
  indices of the Rust code become character indices (the inputs we reason
  about are ASCII, where the two coincide).
* The external collaborators are oracle inputs, not part of the verified
  code: the pulldown_cmark parser is a function `parse : Str → List ParseEvent`
  delivering exactly the events `collect_markdown_links` consumes (link-start
  events and broken-link callback invocations); the rustdoc subprocess is a
  boolean exit status `rustdocOk`; the list of captures extracted from the
  generated HTML by `STD_LINK_EXTRACT_RE` is `urls`; the `SPEC_RELATIVE=0`
  environment switch is `specRelativeDisabled`.
* Fatal paths of the Rust code are of two kinds and are kept distinct:
  `process::exit(1)` (which, per its libstd documentation, terminates without
  running destructors) and `panic!`/`unwrap` failures (which unwind and run
  destructors).  The per-run `TempDir` is removed by its `Drop` impl, so it
  is still on disk after an exit-style abort that happens after its creation,
  and is gone otherwise.  Each `RunOutcome` records whether the directory is
  left behind (`tempDirLeaked`) and the book as it stands when the run ends.
* `HashMap` iteration order is unspecified but fixed while the map is not
  mutated; both the stub-generation loop of `run_rustdoc` and the URL
  splitting loop iterate the same unmodified map, so they see the same
  order.  The model represents the map as an association list in insertion
  order (`mapInsert` overwrites an existing key in place, as `HashMap::insert`
  does) and uses that single list for both loops, which is exactly the
  property those loops rely on.
-/

abbrev Str := List Char

/-- `pulldown_cmark::LinkType`, as matched by std_links.rs. -/
inductive LinkType where
  | inline
  | reference
  | referenceUnknown
  | collapsed
  | collapsedUnknown
  | shortcut
  | shortcutUnknown
  | autolink
  | email
deriving DecidableEq, Repr

/-- The `Link` struct of std_links.rs: link style, destination text
(for example `std::ffi::OsString`), and the span `rstart..rstop` in the
original markdown where the link is located. -/
structure Link where
  link_type : LinkType
  dest_url : Str
  rstart : Nat
  rstop : Nat
deriving DecidableEq, Repr

/-- An mdbook `Chapter`, restricted to the fields std_links.rs reads:
`name`, `content`, the source-path components `pathComponents`
(`chapter.path.components()`, used by `relative_url`; meaningful only for
non-draft chapters), `source_path` (the key of the per-chapter maps), and
draft status (`is_draft_chapter()`). -/
structure Chapter where
  name : Str
  content : Str
  pathComponents : List Str
  source_path : Str
  is_draft : Bool
deriving DecidableEq, Repr

/-- An mdbook `BookItem`: a chapter, or one of the non-chapter items
(`Separator`/`PartTitle`) which every loop of std_links.rs skips. -/
inductive BookItem where
  | chapter (ch : Chapter)
  | separator
deriving DecidableEq, Repr

/-- One event delivered by the external pulldown_cmark parser, as consumed by
`collect_markdown_links`: a `Event::Start(Tag::Link ...)` with its type,
destination, title and span, or an invocation of the broken-link callback
(`BrokenLink`) with the original link type, the reference text between the
brackets, and the span.  All other events fall into the `_ => {}` arm of the
source and are not modelled. -/
inductive ParseEvent where
  | linkStart (link_type : LinkType) (dest_url title : Str) (rstart rstop : Nat)
  | brokenLink (link_type : LinkType) (reference : Str) (rstart rstop : Nat)
deriving DecidableEq, Repr

/-- The diagnostics printed on the fatal paths of std_links.rs, carrying the
same data the `eprintln!` calls interpolate. -/
inductive Diagnostic where
  | titlesNotSupported (dest_url title chapterName chapterSourcePath : Str)
  | countMismatch (expected found : Nat)
  | rustdocFailed
  | anchorNotFound (url : Str)
  | linkPatternMismatch (md_link : Str) (link_type : LinkType)
  | docUrlMismatch (url : Str)
deriving DecidableEq, Repr

/-- How a run dies: `exit d` models `eprintln! + process::exit(1)` (no
destructors run), `panic m` models `panic!`/a failed `unwrap` (unwinds,
destructors run). -/
inductive Abort where
  | exit (d : Diagnostic)
  | panic (msg : Str)
deriving DecidableEq, Repr

/-- The observable outcome of one `std_links` run: the final book, and
whether the per-run temporary directory is still on disk after the run
(`tempDirLeaked = true` exactly when the directory was created and the run
then terminated through `process::exit`, skipping the `TempDir` destructor). -/
inductive RunOutcome where
  | success (book : List BookItem) (tempDirLeaked : Bool)
  | aborted (why : Abort) (book : List BookItem) (tempDirLeaked : Bool)
deriving DecidableEq, Repr

/-! ### Small string helpers -/

/-- `str::starts_with` on the model strings. -/
def strStartsWith (s pat : Str) : Bool := pat.isPrefixOf s

/-- `str::contains` (substring search) on the model strings. -/
def strContains (s pat : Str) : Bool := s.tails.any fun t => pat.isPrefixOf t

/-- The slice `&s[a..b]`. -/
def strSlice (s : Str) (a b : Nat) : Str := (s.drop a).take (b - a)

/-- `String::replace_range(a..b, new)`. -/
def replaceRange (s : Str) (a b : Nat) (new : Str) : Str :=
  s.take a ++ new ++ s.drop b

/-! ### Association-list model of the two `HashMap`s -/

/-- `HashMap::insert`: overwrite the value of an existing key in place,
otherwise add the binding. -/
def mapInsert {α : Type} (k : Str) (v : α) : List (Str × α) → List (Str × α)
  | [] => [(k, v)]
  | (k', v') :: rest =>
    if k' = k then (k, v) :: rest else (k', v') :: mapInsert k v rest

/-- `HashMap` indexing (`map[&k]`), `none` when the key is absent (in which
case the Rust code panics). -/
def mapGet? {α : Type} (k : Str) : List (Str × α) → Option α
  | [] => none
  | (k', v) :: rest => if k' = k then some v else mapGet? k rest

/-- `HashMap::remove(&k)`: the removed value and the remaining map. -/
def mapRemove {α : Type} (k : Str) : List (Str × α) → Option (α × List (Str × α))
  | [] => none
  | (k', v) :: rest =>
    if k' = k then some (v, rest)
    else
      match mapRemove k rest with
      | none => none
      | some (w, rest') => some (w, (k', v) :: rest')

/-! ### `collect_markdown_links` (std_links.rs lines 133-199) -/

/-- The destination filter of `collect_markdown_links` (lines 172-176):
`dest_url.starts_with("http") || dest_url.contains(".md")
|| dest_url.contains(".html") || dest_url.starts_with('#')`. -/
def destFiltered (dest : Str) : Bool :=
  strStartsWith dest ("http".toList) || strContains dest (".md".toList) ||
    strContains dest (".html".toList) || strStartsWith dest ['#']

/-- The event loop of `collect_markdown_links`, threading the `links` and
`broken_links` accumulators; at the end of the events
`links.extend(broken_links)` (line 197) appends the broken links.  The only
fatal path is the non-empty-title check (lines 179-187), an
`eprintln! + process::exit(1)`. -/
def collectGo (chName chPath : Str) :
    List ParseEvent → List Link → List Link → Except Diagnostic (List Link)
  | [], links, broken => .ok (links ++ broken)
  | .brokenLink lt ref a b :: rest, links, broken =>
    collectGo chName chPath rest links (broken ++ [⟨lt, ref, a, b⟩])
  | .linkStart lt dest title a b :: rest, links, broken =>
    if lt = .autolink ∨ lt = .email then collectGo chName chPath rest links broken
    else if destFiltered dest then collectGo chName chPath rest links broken
    else if title ≠ [] then .error (.titlesNotSupported dest title chName chPath)
    else collectGo chName chPath rest (links ++ [⟨lt, dest, a, b⟩]) broken

/-- `collect_markdown_links(chapter)`, with the parser's events supplied by
the oracle. -/
def collect_markdown_links (ch : Chapter) (events : List ParseEvent) :
    Except Diagnostic (List Link) :=
  collectGo ch.name ch.source_path events [] []

example :
    collect_markdown_links
      { name := "c".toList, content := "[a](std::vec::Vec) [x](#y)".toList,
        pathComponents := ["c.md".toList], source_path := "c.md".toList,
        is_draft := false }
      [.linkStart .inline ("std::vec::Vec".toList) [] 0 18,
       .linkStart .inline ("#y".toList) [] 19 26] =
    .ok [⟨.inline, "std::vec::Vec".toList, 0, 18⟩] := by rfl

/-! ### Models of the precompiled regexes

The three markdown-link regexes (lines 26-30) and the anchor regex (line 23)
are modelled with the leftmost-first, greedy backtracking semantics of the
`regex` crate, specialised to the concrete patterns:

* a match can only start at a `[` (resp. at the literal `<a href="`), and the
  engine picks the leftmost start position at which the whole pattern matches;
* a greedy `.+`/`.*` takes the longest extent at which the remainder of the
  pattern still matches; for these patterns that means capture group 1 ends
  at the *greatest* index `j` that is "viable", i.e. such that `s[j]` closes
  the group and the rest of the pattern can match after it.
-/

/-- Greatest `k < n` with `p k`, scanning downward — the greedy choice of a
quantifier's extent. -/
def findGreatest (p : Nat → Bool) : Nat → Option Nat
  | 0 => none
  | n + 1 => if p n then some n else findGreatest p n

/-- Least `i` with `p i` in `[start, start+fuel)`, scanning upward — the
leftmost match position. -/
def findLeastGo (p : Nat → Bool) : Nat → Nat → Option Nat
  | _, 0 => none
  | i, fuel + 1 => if p i then some i else findLeastGo p (i + 1) fuel

/-- Least `i < n` with `p i`. -/
def findLeast (p : Nat → Bool) (n : Nat) : Option Nat := findLeastGo p 0 n

/-- `s[i]? = some c`. -/
def isAt (s : Str) (i : Nat) (c : Char) : Bool := s[i]? == some c

/-- Index of the last occurrence of `c` in `s`. -/
def lastIdxOf (c : Char) (s : Str) : Option Nat :=
  findGreatest (fun i => isAt s i c) s.length

/-- Viability of `j` as the end of capture group 1 for
`MD_LINK_INLINE = (?s)(\[.+\])(\(.+\))` with the match starting at `i`:
`s[i+1..j]` is the non-empty `.+` of group 1, `s[j] = ']'`, and the remainder
`\(.+\)` can match right after, i.e. `s[j+1] = '('` and some `')'` occurs at
an index `≥ j+3` (leaving a non-empty `.+` in group 2; the greedy group 2
runs to the last `')'`, which does not affect group 1). -/
def inlineViable (s : Str) (i j : Nat) : Bool :=
  decide (i + 2 ≤ j) && isAt s j ']' && isAt s (j + 1) '(' &&
    (match lastIdxOf ')' s with
     | some k => decide (j + 3 ≤ k)
     | none => false)

/-- Viability of `j` for `MD_LINK_REFERENCE = (?s)(\[.+\])(\[.*\])`:
as above but the remainder is `\[.*\]`, whose `.*` may be empty, so a `']'`
at an index `≥ j+2` suffices. -/
def refViable (s : Str) (i j : Nat) : Bool :=
  decide (i + 2 ≤ j) && isAt s j ']' && isAt s (j + 1) '[' &&
    (match lastIdxOf ']' s with
     | some k => decide (j + 2 ≤ k)
     | none => false)

/-- Viability of `j` for `MD_LINK_SHORTCUT = (?s)(\[.+\])`: nothing follows
the group, so any `']'` with a non-empty interior is viable. -/
def shortcutViable (s : Str) (i j : Nat) : Bool :=
  decide (i + 2 ≤ j) && isAt s j ']'

/-- Capture group 1 of a pattern `(\[.+\])⟨rest⟩` under leftmost-greedy
semantics: the match starts at the least `i` with `s[i] = '['` from which
some viable `j` exists, and group 1 greedily ends at the greatest such `j`. -/
def extractGroup1 (viable : Str → Nat → Nat → Bool) (s : Str) : Option Str :=
  (findLeast (fun i => isAt s i '[' && (findGreatest (viable s i) s.length).isSome)
      s.length).bind fun i =>
    (findGreatest (viable s i) s.length).bind fun j =>
      some (strSlice s i (j + 1))

/-- `MD_LINK_INLINE.captures(s)` group 1. -/
def MD_LINK_INLINE_cap1 : Str → Option Str := extractGroup1 inlineViable

/-- `MD_LINK_REFERENCE.captures(s)` group 1. -/
def MD_LINK_REFERENCE_cap1 : Str → Option Str := extractGroup1 refViable

/-- `MD_LINK_SHORTCUT.captures(s)` group 1. -/
def MD_LINK_SHORTCUT_cap1 : Str → Option Str := extractGroup1 shortcutViable

/-- The style-specific display-text extraction of `compute_replacements`
(lines 318-327): inline links use `MD_LINK_INLINE`, reference and collapsed
links use `MD_LINK_REFERENCE`, shortcut links use `MD_LINK_SHORTCUT`; every
other style reaches the `panic!` arm, handled by the caller. -/
def extractDisplay : LinkType → Str → Option Str
  | .inline, s => MD_LINK_INLINE_cap1 s
  | .reference, s => MD_LINK_REFERENCE_cap1 s
  | .collapsed, s => MD_LINK_REFERENCE_cap1 s
  | .shortcut, s => MD_LINK_SHORTCUT_cap1 s
  | _, _ => none

/-- The literal `<a href="` that starts a match of `ANCHOR_URL`. -/
def anchorLit : Str := "<a href=\"".toList

/-- A match of `ANCHOR_URL = <a href="([^"]+)"` anchored at the start of `s`:
the literal, then a non-empty run of non-quote characters, then `"`. -/
def anchorHere (s : Str) : Option Str :=
  if anchorLit.isPrefixOf s then
    let after := s.drop anchorLit.length
    let cap := after.takeWhile (fun ch => ch != '"')
    if cap.length ≠ 0 ∧ cap.length < after.length then some cap else none
  else none

/-- `ANCHOR_URL.captures(s)` group 1: the leftmost position at which the
pattern matches. -/
def ANCHOR_URL_cap1 : Str → Option Str
  | [] => none
  | c :: rest =>
    match anchorHere (c :: rest) with
    | some r => some r
    | none => ANCHOR_URL_cap1 rest

example :
    ANCHOR_URL_cap1 ("<li><a href=\"https://x\">t</a>".toList) =
      some ("https://x".toList) := by rfl
example : MD_LINK_SHORTCUT_cap1 ("[`Option`]".toList) = some ("[`Option`]".toList) := by rfl
example : MD_LINK_INLINE_cap1 ("[foo](bar)".toList) = some ("[foo]".toList) := by rfl
example : MD_LINK_REFERENCE_cap1 ("[foo][bar]".toList) = some ("[foo]".toList) := by rfl
example : MD_LINK_REFERENCE_cap1 ("[foo][]".toList) = some ("[foo]".toList) := by rfl

/-! ### `compute_replacements` (lines 290-336) -/

/-- One planned replacement, the `(md_link, url, range)` triple of
`compute_replacements`. -/
structure Repl where
  mdLink : Str
  url : Str
  rstart : Nat
  rstop : Nat
deriving DecidableEq, Repr

/-- The order imposed by the final sort (line 334):
`sort_by(|a, b| b.2.clone().partial_cmp(a.2.clone()).unwrap())` compares the
ranges as iterators, i.e. lexicographically as the sequences
`[start, start+1, ..., end-1]`; for the non-empty ranges of links this is the
lexicographic order on `(start, stop)`, reversed, so the sorted list is
descending.  `ReplLE a b` states that `a` may precede `b`. -/
def ReplLE (a b : Repl) : Prop :=
  b.rstart < a.rstart ∨ (b.rstart = a.rstart ∧ b.rstop ≤ a.rstop)

instance : DecidableRel ReplLE := fun a b => by unfold ReplLE; infer_instance

instance : IsTotal Repl ReplLE := ⟨by intro a b; unfold ReplLE; omega⟩

instance : IsTrans Repl ReplLE := ⟨by intro a b c; unfold ReplLE; omega⟩

/-- The sort on line 334 (Rust's stable sort; ties cannot arise for the
disjoint non-empty spans of distinct links, so any stable comparison sort
computes the same list). -/
def sortReplacements : List Repl → List Repl := List.insertionSort ReplLE

/-- The loop body of `compute_replacements` over `urls.iter().zip(links)`
(lines 297-332): extract the anchor URL, slice the original markdown at the
link's span, extract the display text with the style-specific regex, and
record `(md_link, url, range)`.  Failure of the anchor regex or of the
display regex is an `eprintln! + process::exit(1)`; an unexpected style is a
`panic!`. -/
def computeGo (contents : Str) : List (Str × Link) → Except Abort (List Repl)
  | [] => .ok []
  | (url, link) :: rest =>
    match ANCHOR_URL_cap1 url with
    | none => .error (.exit (.anchorNotFound url))
    | some u =>
      let md_link := strSlice contents link.rstart link.rstop
      match link.link_type with
      | .inline | .reference | .collapsed | .shortcut =>
        match extractDisplay link.link_type md_link with
        | none => .error (.exit (.linkPatternMismatch md_link link.link_type))
        | some disp =>
          match computeGo contents rest with
          | .error a => .error a
          | .ok rs => .ok (⟨disp, u, link.rstart, link.rstop⟩ :: rs)
      | _ => .error (.panic ("unexpected link type".toList))

/-- `compute_replacements(contents, links, urls)`. -/
def compute_replacements (contents : Str) (links : List Link) (urls : List Str) :
    Except Abort (List Repl) :=
  match computeGo contents (urls.zip links) with
  | .error a => .error a
  | .ok rs => .ok (sortReplacements rs)

/-! ### `relative_url` (lines 262-281) -/

/-- Shortest match at the start of `s` of `[0-9]+\.[0-9]+`: the run of
digits must end exactly at the `.` (so its length is forced), and the
shortest second group is a single digit. -/
def versionTailLen (s : Str) : Option Nat :=
  let a := (s.takeWhile (fun c => c.isDigit)).length
  if decide (1 ≤ a) && isAt s a '.' &&
      (match s[a + 1]? with | some c => c.isDigit | none => false) then
    some (a + 2)
  else none

/-- `DOC_URL.shortest_match(url)` for
`^https://doc.rust-lang.org/(?:nightly|beta|stable|dev|1\.[0-9]+\.[0-9]+)`:
the length of the shortest prefix of `url` matching the pattern.  The five
alternatives are mutually exclusive (they differ in their first character
after the host), and the unescaped dots of the pattern are modelled as the
literal characters they are intended to match. -/
def docUrlShortestMatch (url : Str) : Option Nat :=
  if strStartsWith url ("https://doc.rust-lang.org/nightly".toList) then
    some ("https://doc.rust-lang.org/nightly".toList).length
  else if strStartsWith url ("https://doc.rust-lang.org/beta".toList) then
    some ("https://doc.rust-lang.org/beta".toList).length
  else if strStartsWith url ("https://doc.rust-lang.org/stable".toList) then
    some ("https://doc.rust-lang.org/stable".toList).length
  else if strStartsWith url ("https://doc.rust-lang.org/dev".toList) then
    some ("https://doc.rust-lang.org/dev".toList).length
  else if strStartsWith url ("https://doc.rust-lang.org/1.".toList) then
    match versionTailLen (url.drop ("https://doc.rust-lang.org/1.".toList).length) with
    | some k => some (("https://doc.rust-lang.org/1.".toList).length + k)
    | none => none
  else none

/-- `relative_url(url, chapter)`: unless `SPEC_RELATIVE=0` is set, strip the
recognized `doc.rust-lang.org` channel prefix (exiting when it is absent) and
prepend one `..` per component of the chapter's source path. -/
def relative_url (specRelativeDisabled : Bool) (url : Str)
    (chapterPathComponents : List Str) : Except Diagnostic Str :=
  if specRelativeDisabled = false then
    match docUrlShortestMatch url with
    | none => .error (.docUrlMismatch url)
    | some n =>
      let url_path := url.drop n
      let num_dots := chapterPathComponents.length
      let dots := List.intercalate ("/".toList) (List.replicate num_dots ("..".toList))
      .ok (dots ++ url_path)
  else .ok url

/-! ### `run_rustdoc` (lines 208-260) -/

/-- The flattening order of the stub-generation loop (lines 218-238): the
candidates of each chapter, in the iteration order of `chapter_links`,
concatenated. -/
def flattenLinks (chapter_links : List (Str × List Link)) : List Link :=
  (chapter_links.map Prod.snd).flatten

/-- One `//! - LINK: [dest]` doc-comment line of the generated stub, or the
`panic!` of the unreachable styles (lines 220-236). -/
def stubLine (l : Link) : Except Abort Str :=
  match l.link_type with
  | .inline | .reference | .collapsed | .shortcut =>
    .ok (("//! - LINK: [".toList) ++ l.dest_url ++ [']'])
  | .referenceUnknown | .collapsedUnknown | .shortcutUnknown =>
    .error (.panic ("unexpected link type unknown".toList))
  | .autolink | .email =>
    .error (.panic ("link type should have been filtered".toList))

/-- The stub lines for the flattened candidate list. -/
def stubLines : List Link → Except Abort (List Str)
  | [] => .ok []
  | l :: rest =>
    match stubLine l with
    | .error a => .error a
    | .ok s =>
      match stubLines rest with
      | .error a => .error a
      | .ok ss => .ok (s :: ss)

/-- `run_rustdoc(tmp, chapter_links)`: generate the stub (possibly panicking
on an unreachable style) and run the external resolver, whose exit status is
the oracle `rustdocOk`; a nonzero status echoes rustdoc's stderr and exits. -/
def run_rustdoc (chapter_links : List (Str × List Link)) (rustdocOk : Bool) :
    Except Abort (List Str) :=
  match stubLines (flattenLinks chapter_links) with
  | .error a => .error a
  | .ok lines => if rustdocOk then .ok lines else .error (.exit .rustdocFailed)

/-! ### The `std_links` pipeline (lines 34-114) -/

/-- Total number of collected candidates,
`chapter_links.values().map(|l| l.len()).sum()` (line 59). -/
def totalLinkCount (chapter_links : List (Str × List Link)) : Nat :=
  (chapter_links.map (fun e => e.2.length)).sum

/-- The unflattening loop (lines 69-74): split the global URL list into
per-chapter runs, iterating `chapter_links` in the same order as the
stub-generation loop did. -/
def splitUrls : List (Str × List Link) → List Str → List (Str × List Str)
  | [], _ => []
  | (p, links) :: rest, urls =>
    (p, urls.take links.length) :: splitUrls rest (urls.drop links.length)

/-- The oracle inputs of one run (see the header comment). -/
structure Oracle where
  parse : Str → List ParseEvent
  rustdocOk : Bool
  urls : List Str
  specRelativeDisabled : Bool

/-- The first pass (lines 36-46): collect the links of every non-draft
chapter into `chapter_links`, keyed by source path. -/
def collectGoBook (parse : Str → List ParseEvent)
    (acc : List (Str × List Link)) :
    List BookItem → Except Diagnostic (List (Str × List Link))
  | [] => .ok acc
  | .separator :: rest => collectGoBook parse acc rest
  | .chapter ch :: rest =>
    if ch.is_draft then collectGoBook parse acc rest
    else
      match collect_markdown_links ch (parse ch.content) with
      | .error d => .error d
      | .ok links => collectGoBook parse (mapInsert ch.source_path links acc) rest

/-- `collectGoBook` started on an empty map. -/
def collectPhase (parse : Str → List ParseEvent) (book : List BookItem) :
    Except Diagnostic (List (Str × List Link)) :=
  collectGoBook parse [] book

/-- The replacement applied for `(md_link, url, range)`:
`format!("{md_link}({url})")` — an inline-style link. -/
def inlineLinkText (mdLink urlText : Str) : Str :=
  mdLink ++ '(' :: (urlText ++ [')'])

/-- The per-chapter replacement loop (lines 90-98): convert each URL to be
relative, then splice the buffer at the replacement's span. -/
def applyReplacementsLoop (specRelativeDisabled : Bool) (pathComps : List Str) :
    Str → List Repl → Except Abort Str
  | content, [] => .ok content
  | content, r :: rest =>
    match relative_url specRelativeDisabled r.url pathComps with
    | .error d => .error (.exit d)
    | .ok u =>
      applyReplacementsLoop specRelativeDisabled pathComps
        (replaceRange content r.rstart r.rstop (inlineLinkText r.mdLink u)) rest

/-- The second pass (lines 77-100): for every non-draft chapter, look up its
links and URLs (panicking if the key is missing, as `HashMap` indexing does),
plan the replacements, apply them, and record the new content in
`ch_contents`. -/
def rewritePhase (ora : Oracle) (chLinks : List (Str × List Link))
    (chUrls : List (Str × List Str)) :
    List BookItem → List (Str × Str) → Except Abort (List (Str × Str))
  | [], acc => .ok acc
  | .separator :: rest, acc => rewritePhase ora chLinks chUrls rest acc
  | .chapter ch :: rest, acc =>
    if ch.is_draft then rewritePhase ora chLinks chUrls rest acc
    else
      match mapGet? ch.source_path chLinks, mapGet? ch.source_path chUrls with
      | some links, some urls =>
        match compute_replacements ch.content links urls with
        | .error a => .error a
        | .ok reps =>
          match applyReplacementsLoop ora.specRelativeDisabled ch.pathComponents
              ch.content reps with
          | .error a => .error a
          | .ok newContent =>
            rewritePhase ora chLinks chUrls rest (mapInsert ch.source_path newContent acc)
      | _, _ => .error (.panic ("no entry found for key".toList))

/-- The third pass (lines 103-113, `book.for_each_mut`): move each non-draft
chapter's new content out of `ch_contents` (`remove(key).unwrap()`); a
missing key is a panic that unwinds mid-traversal, leaving this chapter and
the ones after it untouched. -/
def commitPhase : List BookItem → List (Str × Str) → List BookItem × Option Str
  | [], _ => ([], none)
  | .separator :: rest, contents =>
    let r := commitPhase rest contents
    (.separator :: r.1, r.2)
  | .chapter ch :: rest, contents =>
    if ch.is_draft then
      let r := commitPhase rest contents
      (.chapter ch :: r.1, r.2)
    else
      match mapRemove ch.source_path contents with
      | none =>
        (.chapter ch :: rest, some ("called Option::unwrap on a None value".toList))
      | some (content, contents2) =>
        let r := commitPhase rest contents2
        (.chapter { ch with content := content } :: r.1, r.2)

/-- Whether an abort that happens while the temporary directory exists
leaves it on disk: a `process::exit` does (destructors are skipped), a panic
does not (unwinding drops the `TempDir` guard). -/
def abortLeaksTemp : Abort → Bool
  | .exit _ => true
  | .panic _ => false

/-- `std_links(book)`, the whole run.  The temporary directory is created
after the collect phase (line 48); an abort before that point cannot leak
it, every later abort leaks it exactly when it is a `process::exit`
(`abortLeaksTemp`), and a normal return drops it at the end of the
function. -/
def std_links (ora : Oracle) (book : List BookItem) : RunOutcome :=
  match collectPhase ora.parse book with
  | .error d => .aborted (.exit d) book false
  | .ok chapter_links =>
    match run_rustdoc chapter_links ora.rustdocOk with
    | .error a => .aborted a book (abortLeaksTemp a)
    | .ok _lines =>
      if ora.urls.length ≠ totalLinkCount chapter_links then
        .aborted (.exit (.countMismatch (totalLinkCount chapter_links) ora.urls.length))
          book true
      else
        match rewritePhase ora chapter_links (splitUrls chapter_links ora.urls) book [] with
        | .error a => .aborted a book (abortLeaksTemp a)
        | .ok ch_contents =>
          match commitPhase book ch_contents with
          | (book2, some m) => .aborted (.panic m) book2 false
          | (book2, none) => .success book2 false

/-! ### Claim C2: the order invariant of flattening and splitting -/

/-- **C2**: For every run in which the count check passes, the order in which
candidate links are flattened into the resolver stub (`flattenLinks`, the
iteration order of the stub-generation loop) is identical to the order in
which the global URL list is split back into per-document runs (`splitUrls`
iterates the same association list), so partitioning any URL list obtained by
resolving the flattened candidates in order — `resolve` gives the URL of each
candidate — assigns to each document exactly the URLs of its own candidates,
in the order those candidates were collected.  The first conjunct is the
count check passing for such a list. -/
theorem C2_order_invariant (chapter_links : List (Str × List Link))
    (resolve : Link → Str) :
    ((flattenLinks chapter_links).map resolve).length = totalLinkCount chapter_links ∧
    splitUrls chapter_links ((flattenLinks chapter_links).map resolve) =
      chapter_links.map (fun e => (e.1, e.2.map resolve)) := by
  constructor
  · simp [flattenLinks, totalLinkCount, List.length_flatten, List.map_map,
      Function.comp_def]
  · induction chapter_links with
    | nil => rfl
    | cons e rest ih =>
      obtain ⟨p, links⟩ := e
      simp only [flattenLinks, List.map_cons, List.flatten_cons, splitUrls,
        List.map_append] at *
      rw [show links.length = (links.map resolve).length from
        (List.length_map _ _).symm, List.take_left, List.drop_left, ih]

/-! ### Claim C3: scenario 1, the relative rewrite -/

/-- The chapter of scenario 1: nested one directory level below the
documentation root, i.e. its source path has a single component, so
`relative_url` prepends a single `..`. -/
def c3Chapter : Chapter :=
  { name := "chapter".toList,
    content := "See [std::option::Option] for details.".toList,
    pathComponents := ["chapter.md".toList],
    source_path := "chapter.md".toList,
    is_draft := false }

/-- The oracle of scenario 1: pulldown_cmark reports
`[std::option::Option]` as a broken shortcut link spanning bytes 4..25 with
the literal reference text as destination; rustdoc succeeds; the single
extracted capture is an anchor to the stable-channel URL with path
`/std/option/enum.Option.html`; `SPEC_RELATIVE` is not set (relative mode,
the default). -/
def c3Oracle : Oracle :=
  { parse := fun _ => [.brokenLink .shortcut ("std::option::Option".toList) 4 25],
    rustdocOk := true,
    urls := [("<a href=\"https://doc.rust-lang.org/stable/std/option/enum.Option.html\">Option</a>").toList],
    specRelativeDisabled := false }

/-- **C3**: In relative-output mode (the default), a document one directory
level deep (one source-path component) containing
`See [std::option::Option] for details.`, whose candidate resolves to an
absolute URL under the canonical stable-channel host with path
`/std/option/enum.Option.html`, is rewritten to
`See [std::option::Option](../std/option/enum.Option.html) for details.`:
the canonical host/channel prefix is stripped and one `../` per source-path
component — the document's nesting depth — is prepended. -/
theorem C3_scenario1_relative_rewrite :
    std_links c3Oracle [.chapter c3Chapter] =
      .success [.chapter { c3Chapter with
        content :=
          "See [std::option::Option](../std/option/enum.Option.html) for details.".toList }]
        false := by
  rfl

/-! ### Claim C1: the count invariant -/

/-- **C1**: For every run that reaches the count check (collection succeeded
and the resolver ran successfully), if the total number of candidates
collected across all documents differs from the number of URLs extracted
from the resolver's HTML output, the run terminates through
`process::exit(1)`, reporting both counts, with every document's text buffer
still the original one (the book carried by the outcome is the input book:
the mutation passes run only after this check). -/
theorem C1_count_invariant (ora : Oracle) (book : List BookItem)
    (chapter_links : List (Str × List Link))
    (hc : collectPhase ora.parse book = .ok chapter_links)
    (hr : ∃ lines, run_rustdoc chapter_links ora.rustdocOk = .ok lines)
    (hm : ora.urls.length ≠ totalLinkCount chapter_links) :
    std_links ora book =
      .aborted (.exit (.countMismatch (totalLinkCount chapter_links) ora.urls.length))
        book true := by
  obtain ⟨lines, hr⟩ := hr
  unfold std_links
  rw [hc]
  simp only [hr, hm, if_true, ite_true, ne_eq, not_false_eq_true]

/-- Concrete book for the C1 witness. -/
def c1Book : List BookItem :=
  [.chapter { name := "c".toList, content := "[std::vec::Vec]".toList,
              pathComponents := ["c.md".toList], source_path := "c.md".toList,
              is_draft := false }]

/-- Concrete oracle for the C1 witness: one candidate collected, but the
resolver output yields no URLs. -/
def c1Oracle : Oracle :=
  { parse := fun _ => [.brokenLink .shortcut ("std::vec::Vec".toList) 0 15],
    rustdocOk := true,
    urls := [],
    specRelativeDisabled := false }

theorem C1_count_invariant_witness :
    std_links c1Oracle c1Book =
      .aborted (.exit (.countMismatch 1 0)) c1Book true :=
  C1_count_invariant c1Oracle c1Book
    [("c.md".toList, [⟨.shortcut, "std::vec::Vec".toList, 0, 15⟩])]
    (by rfl) ⟨[("//! - LINK: [std::vec::Vec".toList ++ [']'])], by rfl⟩ (by decide)

/-! ### Claim C7: links with titles abort the run before any mutation -/

/-- A parser event that reaches the title check of `collect_markdown_links`
and fails it: a link-start event that is not an autolink/email link, whose
destination passes the filters, and whose title is non-empty. -/
def offendingEvent : ParseEvent → Bool
  | .linkStart lt dest title _ _ =>
    !(decide (lt = .autolink ∨ lt = .email)) && !(destFiltered dest) &&
      decide (title ≠ [])
  | .brokenLink _ _ _ _ => false

/-- Some event of the list is an offending titled link. -/
def hasOffendingTitle (events : List ParseEvent) : Bool :=
  events.any offendingEvent

/-- Some non-draft chapter of the book contains an offending titled link. -/
def anyOffendingTitle (parse : Str → List ParseEvent) : List BookItem → Bool
  | [] => false
  | .separator :: rest => anyOffendingTitle parse rest
  | .chapter ch :: rest =>
    (!ch.is_draft && hasOffendingTitle (parse ch.content)) ||
      anyOffendingTitle parse rest

/-- The diagnostic data `(dest, title, chapter name, chapter source path)`
names an actual offending link of an actual non-draft chapter of the book. -/
def OffendingLinkIn (parse : Str → List ParseEvent) (book : List BookItem)
    (dest title chName chPath : Str) : Prop :=
  ∃ ch, BookItem.chapter ch ∈ book ∧ ch.is_draft = false ∧ ch.name = chName ∧
    ch.source_path = chPath ∧
    ∃ lt a b, ParseEvent.linkStart lt dest title a b ∈ parse ch.content ∧
      offendingEvent (.linkStart lt dest title a b) = true

/-- If the events contain an offending titled link, `collectGo` exits with a
`titlesNotSupported` diagnostic naming an offending link of the list. -/
theorem collectGo_error_of_offending (n p : Str) :
    ∀ (events : List ParseEvent) (links broken : List Link),
      hasOffendingTitle events = true →
      ∃ d t, collectGo n p events links broken = .error (.titlesNotSupported d t n p) ∧
        ∃ lt a b, ParseEvent.linkStart lt d t a b ∈ events ∧
          offendingEvent (.linkStart lt d t a b) = true := by
  intro events
  induction events with
  | nil => intro links broken h; simp [hasOffendingTitle] at h
  | cons e rest ih =>
    intro links broken h
    match e with
    | .brokenLink lt ref a b =>
      have h' : hasOffendingTitle rest = true := by
        simpa [hasOffendingTitle, offendingEvent] using h
      obtain ⟨d, t, hgo, lt', a', b', hmem, hoff⟩ := ih links (broken ++ [⟨lt, ref, a, b⟩]) h'
      exact ⟨d, t, by simpa [collectGo] using hgo,
        lt', a', b', List.mem_cons_of_mem _ hmem, hoff⟩
    | .linkStart lt dest title a b =>
      by_cases h1 : lt = .autolink ∨ lt = .email
      · have h' : hasOffendingTitle rest = true := by
          simpa [hasOffendingTitle, offendingEvent, h1] using h
        obtain ⟨d, t, hgo, lt', a', b', hmem, hoff⟩ := ih links broken h'
        exact ⟨d, t, by simpa [collectGo, h1] using hgo,
          lt', a', b', List.mem_cons_of_mem _ hmem, hoff⟩
      · by_cases h2 : destFiltered dest = true
        · have h' : hasOffendingTitle rest = true := by
            simpa [hasOffendingTitle, offendingEvent, h2] using h
          obtain ⟨d, t, hgo, lt', a', b', hmem, hoff⟩ := ih links broken h'
          exact ⟨d, t, by simpa [collectGo, h1, h2] using hgo,
            lt', a', b', List.mem_cons_of_mem _ hmem, hoff⟩
        · by_cases h3 : title = []
          · have h' : hasOffendingTitle rest = true := by
              simpa [hasOffendingTitle, offendingEvent, h3] using h
            obtain ⟨d, t, hgo, lt', a', b', hmem, hoff⟩ :=
              ih (links ++ [⟨lt, dest, a, b⟩]) broken h'
            exact ⟨d, t, by simpa [collectGo, h1, h2, h3] using hgo,
              lt', a', b', List.mem_cons_of_mem _ hmem, hoff⟩
          · refine ⟨dest, title, by simp [collectGo, h1, h2, h3],
              lt, a, b, List.mem_cons_self _ _, ?_⟩
            simp [offendingEvent, h1, h2, h3]

/-- If no event of the list is an offending titled link, `collectGo`
succeeds. -/
theorem collectGo_ok_of_no_offending (n p : Str) :
    ∀ (events : List ParseEvent) (links broken : List Link),
      hasOffendingTitle events = false →
      ∃ ls, collectGo n p events links broken = .ok ls := by
  intro events
  induction events with
  | nil => intro links broken _; exact ⟨links ++ broken, rfl⟩
  | cons e rest ih =>
    intro links broken h
    match e with
    | .brokenLink lt ref a b =>
      have h' : hasOffendingTitle rest = false := by
        simpa [hasOffendingTitle, offendingEvent] using h
      obtain ⟨ls, hgo⟩ := ih links (broken ++ [⟨lt, ref, a, b⟩]) h'
      exact ⟨ls, by simpa [collectGo] using hgo⟩
    | .linkStart lt dest title a b =>
      by_cases h1 : lt = .autolink ∨ lt = .email
      · obtain ⟨ls, hgo⟩ := ih links broken (by
          simpa [hasOffendingTitle, offendingEvent, h1] using h)
        exact ⟨ls, by simpa [collectGo, h1] using hgo⟩
      · by_cases h2 : destFiltered dest = true
        · obtain ⟨ls, hgo⟩ := ih links broken (by
            simpa [hasOffendingTitle, offendingEvent, h2] using h)
          exact ⟨ls, by simpa [collectGo, h1, h2] using hgo⟩
        · have h3 : title = [] := by
            by_contra h3
            have : offendingEvent (.linkStart lt dest title a b) = true := by
              simp [offendingEvent, h1, h2, h3]
            simp [hasOffendingTitle, this] at h
          obtain ⟨ls, hgo⟩ := ih (links ++ [⟨lt, dest, a, b⟩]) broken (by
            simpa [hasOffendingTitle, offendingEvent, h3] using h)
          exact ⟨ls, by simpa [collectGo, h1, h2, h3] using hgo⟩

/-- If some non-draft chapter has an offending titled link, the collect pass
exits with a `titlesNotSupported` diagnostic naming an offending link of an
actual chapter of the book. -/
theorem collectGoBook_error_of_offending (parse : Str → List ParseEvent) :
    ∀ (book : List BookItem) (acc : List (Str × List Link)),
      anyOffendingTitle parse book = true →
      ∃ d t n p, collectGoBook parse acc book = .error (.titlesNotSupported d t n p) ∧
        OffendingLinkIn parse book d t n p := by
  intro book
  induction book with
  | nil => intro acc h; simp [anyOffendingTitle] at h
  | cons item rest ih =>
    intro acc h
    match item with
    | .separator =>
      obtain ⟨d, t, n, p, hgo, ch, hmem, hrest⟩ :=
        ih acc (by simpa [anyOffendingTitle] using h)
      exact ⟨d, t, n, p, by simpa [collectGoBook] using hgo,
        ch, List.mem_cons_of_mem _ hmem, hrest⟩
    | .chapter ch =>
      by_cases hdraft : ch.is_draft
      · obtain ⟨d, t, n, p, hgo, ch', hmem, hrest⟩ :=
          ih acc (by simpa [anyOffendingTitle, hdraft] using h)
        exact ⟨d, t, n, p, by simpa [collectGoBook, hdraft] using hgo,
          ch', List.mem_cons_of_mem _ hmem, hrest⟩
      · by_cases hoff : hasOffendingTitle (parse ch.content) = true
        · obtain ⟨d, t, hgo, lt, a, b, hmem, he⟩ :=
            collectGo_error_of_offending ch.name ch.source_path
              (parse ch.content) [] [] hoff
          refine ⟨d, t, ch.name, ch.source_path, ?_,
            ch, List.mem_cons_self _ _,
            by simpa using hdraft, rfl, rfl, lt, a, b, hmem, he⟩
          simp [collectGoBook, hdraft, collect_markdown_links, hgo]
        · obtain ⟨ls, hok⟩ := collectGo_ok_of_no_offending ch.name ch.source_path
            (parse ch.content) [] [] (by simpa using hoff)
          obtain ⟨d, t, n, p, hgo, ch', hmem, hrest⟩ :=
            ih (mapInsert ch.source_path ls acc) (by
              simpa [anyOffendingTitle, hdraft, hoff] using h)
          refine ⟨d, t, n, p, ?_, ch', List.mem_cons_of_mem _ hmem, hrest⟩
          simp [collectGoBook, hdraft, collect_markdown_links, hok, hgo]

/-- **C7**: If any link that passes the destination filters carries an
explicit non-empty title, the run terminates through `process::exit(1)` with
a `titlesNotSupported` diagnostic naming the offending destination, title and
document, and no document's text is mutated anywhere in the run: the abort
happens during the collect pass, before the temporary directory even exists,
and the outcome carries the input book unchanged. -/
theorem C7_title_abort (ora : Oracle) (book : List BookItem)
    (h : anyOffendingTitle ora.parse book = true) :
    ∃ d t n p,
      std_links ora book = .aborted (.exit (.titlesNotSupported d t n p)) book false ∧
      OffendingLinkIn ora.parse book d t n p := by
  obtain ⟨d, t, n, p, hgo, hin⟩ :=
    collectGoBook_error_of_offending ora.parse book [] h
  refine ⟨d, t, n, p, ?_, hin⟩
  unfold std_links collectPhase
  rw [hgo]

theorem C7_title_abort_witness :
    ∃ d t n p,
      std_links
        { parse := fun _ =>
            [.linkStart .inline ("std::option::Option".toList) ("title".toList) 0 37],
          rustdocOk := true, urls := [], specRelativeDisabled := false }
        [.chapter { name := "c".toList,
                    content := "[Option](std::option::Option \"title\")".toList,
                    pathComponents := ["c.md".toList], source_path := "c.md".toList,
                    is_draft := false }] =
        .aborted (.exit (.titlesNotSupported d t n p))
          [.chapter { name := "c".toList,
                      content := "[Option](std::option::Option \"title\")".toList,
                      pathComponents := ["c.md".toList], source_path := "c.md".toList,
                      is_draft := false }] false ∧
      OffendingLinkIn
        (fun _ => [.linkStart .inline ("std::option::Option".toList) ("title".toList) 0 37])
        [.chapter { name := "c".toList,
                    content := "[Option](std::option::Option \"title\")".toList,
                    pathComponents := ["c.md".toList], source_path := "c.md".toList,
                    is_draft := false }] d t n p :=
  C7_title_abort _ _ (by rfl)

/-! ### Claims C6 and C9: what gets collected, and in which order -/

/-- The candidate produced by a link-start event that passes the type filter,
the destination filter and the title check; `none` when the event is skipped
(note that a titled link makes the whole collection fail instead, which this
function does not model — it is only used to describe successful runs). -/
def normalKeep : ParseEvent → Option Link
  | .linkStart lt dest title a b =>
    if lt = .autolink ∨ lt = .email then none
    else if destFiltered dest then none
    else if title ≠ [] then none
    else some ⟨lt, dest, a, b⟩
  | .brokenLink _ _ _ _ => none

/-- The candidate produced by a broken-link callback invocation: the literal
reference text between the brackets becomes the destination, with no
filtering at all. -/
def brokenKeep : ParseEvent → Option Link
  | .brokenLink lt ref a b => some ⟨lt, ref, a, b⟩
  | .linkStart _ _ _ _ _ => none

/-- A successful `collectGo` run returns the filtered link-start candidates
(after the initial `links` accumulator) followed by all broken-link
candidates (after the initial `broken` accumulator). -/
theorem collectGo_ok_characterization (n p : Str) :
    ∀ (events : List ParseEvent) (links broken ls : List Link),
      collectGo n p events links broken = .ok ls →
      ls = (links ++ events.filterMap normalKeep) ++
        (broken ++ events.filterMap brokenKeep) := by
  intro events
  induction events with
  | nil =>
    intro links broken ls h
    simp only [collectGo] at h
    cases h
    simp
  | cons e rest ih =>
    intro links broken ls h
    match e with
    | .brokenLink lt ref a b =>
      simp only [collectGo] at h
      have := ih links (broken ++ [⟨lt, ref, a, b⟩]) ls h
      simp [this, normalKeep, brokenKeep, List.filterMap_cons]
    | .linkStart lt dest title a b =>
      by_cases h1 : lt = .autolink ∨ lt = .email
      · rw [show collectGo n p (ParseEvent.linkStart lt dest title a b :: rest)
            links broken = collectGo n p rest links broken by
          simp [collectGo, h1]] at h
        have := ih links broken ls h
        simp [this, normalKeep, brokenKeep, List.filterMap_cons, h1]
      · by_cases h2 : destFiltered dest = true
        · rw [show collectGo n p (ParseEvent.linkStart lt dest title a b :: rest)
              links broken = collectGo n p rest links broken by
            simp [collectGo, h1, h2]] at h
          have := ih links broken ls h
          simp [this, normalKeep, brokenKeep, List.filterMap_cons, h1, h2]
        · by_cases h3 : title = []
          · rw [show collectGo n p (ParseEvent.linkStart lt dest title a b :: rest)
                links broken =
                collectGo n p rest (links ++ [⟨lt, dest, a, b⟩]) broken by
              simp [collectGo, h1, h2, h3]] at h
            have := ih (links ++ [⟨lt, dest, a, b⟩]) broken ls h
            simp [this, normalKeep, brokenKeep, List.filterMap_cons, h1, h2, h3]
          · rw [show collectGo n p (ParseEvent.linkStart lt dest title a b :: rest)
                links broken =
                .error (.titlesNotSupported dest title n p) by
              simp [collectGo, h1, h2, h3]] at h
            cases h

/-- Everything `normalKeep` lets through passed the filters. -/
theorem normalKeep_passes_filters (e : ParseEvent) (l : Link)
    (h : normalKeep e = some l) :
    destFiltered l.dest_url = false ∧ l.link_type ≠ .autolink ∧
      l.link_type ≠ .email := by
  match e with
  | .brokenLink lt ref a b => simp [normalKeep] at h
  | .linkStart lt dest title a b =>
    by_cases h1 : lt = .autolink ∨ lt = .email
    · simp [normalKeep, h1] at h
    · by_cases h2 : destFiltered dest = true
      · simp [normalKeep, h1, h2] at h
      · by_cases h3 : title = []
        · rw [show normalKeep (ParseEvent.linkStart lt dest title a b) =
              some ⟨lt, dest, a, b⟩ by simp [normalKeep, h1, h2, h3]] at h
          cases h
          refine ⟨?_, fun hx => h1 (Or.inl hx), fun hx => h1 (Or.inr hx)⟩
          simpa using h2
        · simp [normalKeep, h1, h2, h3] at h

/-- **C6 counterexample**: the claim says a link whose destination starts
with the in-page anchor marker `#` is *never* collected, for every link
style; but a broken shortcut reference `[#section]` (delivered through the
broken-link callback, the fallback style) is collected with destination
`#section`, which starts with `#`.  The fallback path (lines 148-156) applies
none of the destination filters. -/
theorem C6_filter_counterexample :
    collect_markdown_links
      { name := "c".toList, content := "[#section]".toList,
        pathComponents := ["c.md".toList], source_path := "c.md".toList,
        is_draft := false }
      [.brokenLink .shortcut ("#section".toList) 0 10] =
      .ok [{ link_type := .shortcut, dest_url := "#section".toList,
             rstart := 0, rstop := 10 }] ∧
    strStartsWith ("#section".toList) ['#'] = true := ⟨by rfl, by rfl⟩

/-- **C6 (amended)**: For every link delivered as a parsed link-start event
(of any style), if its destination starts with a web-scheme prefix, contains
a local-document-file extension marker, or starts with an in-page anchor
marker, or if the link is an auto-link or email link, it is never collected;
candidates captured through the broken-reference fallback, however, are
appended without any destination filtering.  Concretely: a successful
collection returns exactly the filtered link-start candidates followed by
the unfiltered fallback candidates, and every collected link-start candidate
passes the filters. -/
theorem C6_filter_correctness (ch : Chapter) (events : List ParseEvent)
    (ls : List Link) (h : collect_markdown_links ch events = .ok ls) :
    ls = events.filterMap normalKeep ++ events.filterMap brokenKeep ∧
    ∀ l ∈ events.filterMap normalKeep,
      destFiltered l.dest_url = false ∧ l.link_type ≠ .autolink ∧
        l.link_type ≠ .email := by
  constructor
  · have := collectGo_ok_characterization ch.name ch.source_path events [] [] ls h
    simpa using this
  · intro l hl
    obtain ⟨e, _, he⟩ := List.mem_filterMap.mp hl
    exact normalKeep_passes_filters e l he

theorem C6_filter_correctness_witness :
    ([⟨.inline, "std::vec::Vec".toList, 0, 18⟩] : List Link) =
      ([.linkStart .inline ("std::vec::Vec".toList) [] 0 18,
        .linkStart .inline ("#y".toList) [] 19 26] : List ParseEvent).filterMap
          normalKeep ++
      ([.linkStart .inline ("std::vec::Vec".toList) [] 0 18,
        .linkStart .inline ("#y".toList) [] 19 26] : List ParseEvent).filterMap
          brokenKeep :=
  (C6_filter_correctness
    { name := "c".toList, content := "[a](std::vec::Vec) [x](#y)".toList,
      pathComponents := ["c.md".toList], source_path := "c.md".toList,
      is_draft := false }
    [.linkStart .inline ("std::vec::Vec".toList) [] 0 18,
     .linkStart .inline ("#y".toList) [] 19 26]
    [⟨.inline, "std::vec::Vec".toList, 0, 18⟩] (by rfl)).1

/-- **C9**: For every document, malformed shortcut-style references lacking a
resolvable definition — delivered through the broken-link callback — are
appended to the document's candidate list after all well-formed candidate
links, and each such candidate's destination is the literal reference text
that stood between the brackets. -/
theorem C9_broken_link_fallback (ch : Chapter) (events : List ParseEvent)
    (ls : List Link) (h : collect_markdown_links ch events = .ok ls) :
    ls = events.filterMap normalKeep ++
      events.filterMap (fun e =>
        match e with
        | .brokenLink lt ref a b =>
          some { link_type := lt, dest_url := ref, rstart := a, rstop := b }
        | .linkStart _ _ _ _ _ => none) := by
  have := collectGo_ok_characterization ch.name ch.source_path events [] [] ls h
  simpa [brokenKeep] using this

theorem C9_broken_link_fallback_witness :
    ([⟨.inline, "std::vec::Vec".toList, 0, 18⟩,
      ⟨.shortcut, "std::option::Option".toList, 19, 40⟩] : List Link) =
      ([.brokenLink .shortcut ("std::option::Option".toList) 19 40,
        .linkStart .inline ("std::vec::Vec".toList) [] 0 18] :
          List ParseEvent).filterMap normalKeep ++
      ([.brokenLink .shortcut ("std::option::Option".toList) 19 40,
        .linkStart .inline ("std::vec::Vec".toList) [] 0 18] :
          List ParseEvent).filterMap (fun e =>
        match e with
        | .brokenLink lt ref a b =>
          some { link_type := lt, dest_url := ref, rstart := a, rstop := b }
        | .linkStart _ _ _ _ _ => none) :=
  C9_broken_link_fallback
    { name := "c".toList,
      content := "[a](std::vec::Vec) [std::option::Option]".toList,
      pathComponents := ["c.md".toList], source_path := "c.md".toList,
      is_draft := false }
    [.brokenLink .shortcut ("std::option::Option".toList) 19 40,
     .linkStart .inline ("std::vec::Vec".toList) [] 0 18]
    [⟨.inline, "std::vec::Vec".toList, 0, 18⟩,
     ⟨.shortcut, "std::option::Option".toList, 19, 40⟩] (by rfl)

/-! ### Claim C10: draft chapters are neither scanned nor rewritten -/

/-- The items every pass of `std_links` visits: chapters that are not draft
chapters (non-chapter items and drafts are skipped by the `continue`/`return`
guards of all three loops). -/
def isNonDraftItem : BookItem → Bool
  | .chapter ch => !ch.is_draft
  | .separator => false

/-- The collect pass only sees non-draft chapters. -/
theorem collectGoBook_filter (parse : Str → List ParseEvent) :
    ∀ (book : List BookItem) (acc : List (Str × List Link)),
      collectGoBook parse acc book =
      collectGoBook parse acc (book.filter isNonDraftItem) := by
  intro book
  induction book with
  | nil => intro acc; rfl
  | cons item rest ih =>
    intro acc
    match item with
    | .separator => simpa [collectGoBook, isNonDraftItem] using ih acc
    | .chapter ch =>
      by_cases hdraft : ch.is_draft
      · simpa [collectGoBook, isNonDraftItem, hdraft] using ih acc
      · simp only [collectGoBook, List.filter_cons,
          show isNonDraftItem (BookItem.chapter ch) = true by
            simp [isNonDraftItem, hdraft],
          if_true, if_neg hdraft]
        cases collect_markdown_links ch (parse ch.content) with
        | error d => rfl
        | ok links => exact ih (mapInsert ch.source_path links acc)

/-- The commit pass leaves every draft chapter in place, byte for byte, at
its original position — also when the pass panics midway. -/
theorem commitPhase_draft :
    ∀ (items : List BookItem) (contents : List (Str × Str)) (i : Nat)
      (ch : Chapter),
      items[i]? = some (.chapter ch) → ch.is_draft = true →
      (commitPhase items contents).1[i]? = some (.chapter ch) := by
  intro items
  induction items with
  | nil => intro contents i ch h _; simp at h
  | cons item rest ih =>
    intro contents i ch h hdraft
    match i with
    | 0 =>
      simp only [List.getElem?_cons_zero, Option.some_inj] at h
      subst h
      simp [commitPhase, hdraft]
    | i + 1 =>
      simp only [List.getElem?_cons_succ] at h
      match item with
      | .separator => simpa [commitPhase] using ih contents i ch h hdraft
      | .chapter ch' =>
        by_cases hd' : ch'.is_draft
        · simpa [commitPhase, hd'] using ih contents i ch h hdraft
        · simp only [commitPhase, if_neg hd']
          cases hrem : mapRemove ch'.source_path contents with
          | none => simpa using h
          | some pr => simpa using ih pr.2 i ch h hdraft

/-- **C10**: Draft chapters (chapters without a source file) contribute no
candidate links — the collect pass behaves identically on the book and on
its non-draft chapters only, so drafts are not scanned and do not count
toward the global candidate total — and on a successful run every draft
chapter's content is byte-for-byte unchanged at its original position. -/
theorem C10_draft_chapters_untouched (ora : Oracle) (book : List BookItem) :
    collectPhase ora.parse book =
      collectPhase ora.parse (book.filter isNonDraftItem) ∧
    ∀ (b : List BookItem) (l : Bool), std_links ora book = .success b l →
      ∀ (i : Nat) (ch : Chapter), book[i]? = some (.chapter ch) →
        ch.is_draft = true → b[i]? = some (.chapter ch) := by
  constructor
  · exact collectGoBook_filter ora.parse book []
  · intro b l h i ch hi hdraft
    unfold std_links at h
    split at h
    · cases h
    · split at h
      · cases h
      · split at h
        · cases h
        · split at h
          · cases h
          · rename_i ch_contents hrw
            split at h
            · cases h
            · rename_i book2 heq3
              cases h
              have h2 := commitPhase_draft book ch_contents i ch hi hdraft
              rw [heq3] at h2
              exact h2

/-- Concrete book for the C10 witness: a draft chapter followed by a
non-draft chapter. -/
def c10Draft : Chapter :=
  { name := "draft".toList, content := "draft text".toList,
    pathComponents := [], source_path := [], is_draft := true }

/-- The non-draft companion chapter of the C10 witness. -/
def c10Real : Chapter :=
  { name := "real".toList, content := "hello".toList,
    pathComponents := ["real.md".toList], source_path := "real.md".toList,
    is_draft := false }

/-- C10 witness book. -/
def c10Book : List BookItem := [.chapter c10Draft, .chapter c10Real]

/-- C10 witness oracle: no links anywhere, resolver succeeds with no URLs. -/
def c10Oracle : Oracle :=
  { parse := fun _ => [], rustdocOk := true, urls := [],
    specRelativeDisabled := false }

theorem C10_draft_chapters_untouched_witness :
    [BookItem.chapter c10Draft, BookItem.chapter c10Real][0]? =
      some (.chapter c10Draft) :=
  (C10_draft_chapters_untouched c10Oracle c10Book).2
    [.chapter c10Draft, .chapter c10Real] false (by rfl) 0 c10Draft (by rfl) (by rfl)

/-! ### Claim C8: is the temporary directory always removed? -/

/-- C8 counterexample book: one chapter with one candidate. -/
def c8Book : List BookItem :=
  [.chapter { name := "c".toList, content := "[std::ffi::OsString]".toList,
              pathComponents := ["c.md".toList], source_path := "c.md".toList,
              is_draft := false }]

/-- C8 counterexample oracle: the resolver output yields no URLs, so the
count check fails after the temporary directory has been created. -/
def c8Oracle : Oracle :=
  { parse := fun _ => [.brokenLink .shortcut ("std::ffi::OsString".toList) 0 20],
    rustdocOk := true, urls := [], specRelativeDisabled := false }

/-- **C8 counterexample**: the claim says the temporary working directory is
removed at run end on *every* exit path; but on the count-mismatch path the
run terminates through `process::exit(1)`, which does not run destructors, so
the `TempDir` guard's `Drop` — the only thing that removes the directory —
never runs and the directory is left behind (`tempDirLeaked = true`). -/
theorem C8_cleanup_counterexample :
    std_links c8Oracle c8Book =
      .aborted (.exit (.countMismatch 1 0)) c8Book true := by rfl

/-- Diagnostics that are emitted before the temporary directory is created
(the title check runs during the collect pass, before `TempDir::with_prefix`
on line 48). -/
def preTempDirDiag : Diagnostic → Bool
  | .titlesNotSupported _ _ _ _ => true
  | _ => false

/-- The collect pass can only fail with a `titlesNotSupported` diagnostic. -/
theorem collectGo_error_classified (n p : Str) :
    ∀ (events : List ParseEvent) (links broken : List Link) (d : Diagnostic),
      collectGo n p events links broken = .error d → preTempDirDiag d = true := by
  intro events
  induction events with
  | nil => intro links broken d h; cases h
  | cons e rest ih =>
    intro links broken d h
    match e with
    | .brokenLink lt ref a b =>
      exact ih links (broken ++ [⟨lt, ref, a, b⟩]) d (by simpa [collectGo] using h)
    | .linkStart lt dest title a b =>
      by_cases h1 : lt = .autolink ∨ lt = .email
      · exact ih links broken d (by simpa [collectGo, h1] using h)
      · by_cases h2 : destFiltered dest = true
        · exact ih links broken d (by simpa [collectGo, h1, h2] using h)
        · by_cases h3 : title = []
          · exact ih (links ++ [⟨lt, dest, a, b⟩]) broken d
              (by simpa [collectGo, h1, h2, h3] using h)
          · rw [show collectGo n p (ParseEvent.linkStart lt dest title a b :: rest)
                links broken = .error (.titlesNotSupported dest title n p) by
              simp [collectGo, h1, h2, h3]] at h
            cases h
            rfl

/-- The collect pass over a book can only fail with a `titlesNotSupported`
diagnostic. -/
theorem collectGoBook_error_classified (parse : Str → List ParseEvent) :
    ∀ (book : List BookItem) (acc : List (Str × List Link)) (d : Diagnostic),
      collectGoBook parse acc book = .error d → preTempDirDiag d = true := by
  intro book
  induction book with
  | nil => intro acc d h; cases h
  | cons item rest ih =>
    intro acc d h
    match item with
    | .separator => exact ih acc d (by simpa [collectGoBook] using h)
    | .chapter ch =>
      by_cases hdraft : ch.is_draft
      · exact ih acc d (by simpa [collectGoBook, hdraft] using h)
      · rw [show collectGoBook parse acc (BookItem.chapter ch :: rest) =
            match collect_markdown_links ch (parse ch.content) with
            | .error d => .error d
            | .ok links => collectGoBook parse (mapInsert ch.source_path links acc) rest
            from by simp [collectGoBook, hdraft]] at h
        cases hcol : collect_markdown_links ch (parse ch.content) with
        | error d' =>
          rw [hcol] at h
          cases h
          exact collectGo_error_classified ch.name ch.source_path
            (parse ch.content) [] [] d hcol
        | ok links =>
          rw [hcol] at h
          exact ih (mapInsert ch.source_path links acc) d h

/-- **C8 (amended)**: the temporary working directory does not survive a
successful run (it is dropped when `std_links` returns), and an abort before
its creation cannot leak it; but every fatal path that terminates through
`process::exit(1)` *after* the directory exists — count mismatch, resolver
failure, anchor or display-text pattern mismatch, unrecognized canonical
prefix — skips destructors and leaves the directory behind. -/
theorem C8_cleanup_amended (ora : Oracle) (book : List BookItem) :
    (∀ (b : List BookItem) (l : Bool),
      std_links ora book = .success b l → l = false) ∧
    (∀ (d : Diagnostic) (b : List BookItem) (l : Bool),
      std_links ora book = .aborted (.exit d) b l →
        preTempDirDiag d = false → l = true) := by
  constructor
  · intro b l h
    unfold std_links at h
    split at h
    · cases h
    · split at h
      · cases h
      · split at h
        · cases h
        · split at h
          · cases h
          · split at h
            · cases h
            · cases h; rfl
  · intro d b l h hd
    unfold std_links at h
    split at h
    · rename_i d' heq
      cases h
      rw [collectGoBook_error_classified ora.parse book [] d heq] at hd
      cases hd
    · split at h
      · rename_i a heq
        cases h
        rfl
      · split at h
        · cases h; rfl
        · split at h
          · rename_i a heq
            cases h
            rfl
          · split at h
            · cases h
            · cases h

/-- A trivially successful run for the C8 witness: one chapter, no links. -/
def c8sBook : List BookItem :=
  [.chapter { name := "s".toList, content := "hi".toList,
              pathComponents := ["s.md".toList], source_path := "s.md".toList,
              is_draft := false }]

/-- Oracle of the successful C8 witness run. -/
def c8sOracle : Oracle :=
  { parse := fun _ => [], rustdocOk := true, urls := [],
    specRelativeDisabled := false }

theorem C8_cleanup_amended_witness :
    (std_links c8sOracle c8sBook = .success c8sBook false ∧ false = false) ∧
    (std_links c8Oracle c8Book = .aborted (.exit (.countMismatch 1 0)) c8Book true ∧
      true = true) :=
  ⟨⟨by rfl, (C8_cleanup_amended c8sOracle c8sBook).1 c8sBook false (by rfl)⟩,
   ⟨by rfl, (C8_cleanup_amended c8Oracle c8Book).2 (.countMismatch 1 0) c8Book true
      (by rfl) (by rfl)⟩⟩

/-! ### Claim C4: display-text preservation

Support lemmas pinning down the greedy/leftmost searches on well-formed link
slices. -/

/-- `findGreatest` returns `k` when `p` holds at `k` and at nothing above. -/
theorem findGreatest_eq_some (p : Nat → Bool) (k : Nat) :
    ∀ n, k < n → p k = true → (∀ j, k < j → j < n → p j = false) →
      findGreatest p n = some k := by
  intro n
  induction n with
  | zero => omega
  | succ m ih =>
    intro hk hpk hub
    unfold findGreatest
    by_cases h : k = m
    · subst h; simp [hpk]
    · have hm : p m = false := hub m (by omega) (by omega)
      simp only [hm, Bool.false_eq_true, if_false]
      exact ih (by omega) hpk (fun j h1 h2 => hub j h1 (by omega))

/-- `findLeast` returns `0` when `p` already holds there. -/
theorem findLeast_eq_zero (p : Nat → Bool) (n : Nat) (h : 0 < n)
    (hp : p 0 = true) : findLeast p n = some 0 := by
  unfold findLeast
  match n with
  | 0 => omega
  | m + 1 => simp [findLeastGo, hp]

/-- Reading past a prefix. -/
theorem isAt_append_right (pre suf : Str) (j : Nat) (h : pre.length ≤ j)
    (c : Char) : isAt (pre ++ suf) j c = isAt suf (j - pre.length) c := by
  unfold isAt
  rw [List.getElem?_append_right h]

/-- A character that does not occur in `s` is at no position of `s`. -/
theorem isAt_false_of_not_mem (s : Str) (j : Nat) (c : Char) (h : c ∉ s) :
    isAt s j c = false := by
  unfold isAt
  cases hg : s[j]? with
  | none => rfl
  | some x =>
    by_cases hxc : x = c
    · subst hxc; exact absurd (List.getElem?_mem hg) h
    · simp [hxc]

/-- The last occurrence of `c` in `xs ++ [c]` is at index `xs.length`. -/
theorem lastIdxOf_concat (xs : Str) (c : Char) :
    lastIdxOf c (xs ++ [c]) = some xs.length := by
  unfold lastIdxOf
  apply findGreatest_eq_some
  · simp
  · rw [isAt_append_right xs [c] xs.length (le_refl _)]
    simp [isAt]
  · intro j h1 h2
    simp only [List.length_append, List.length_singleton] at h2
    exact absurd h1 (by omega)

/-- On a well-formed inline-link slice `[d](u)` (non-empty display and
destination, no `]` inside the destination), the greedy group 1 of
`MD_LINK_INLINE` is exactly the bracketed display text. -/
theorem MD_LINK_INLINE_cap1_wf (d u : Str) (hd : d ≠ []) (hu : u ≠ [])
    (hru : ']' ∉ u) :
    MD_LINK_INLINE_cap1 ('[' :: d ++ ']' :: '(' :: u ++ [')']) =
      some ('[' :: d ++ [']']) := by
  have hdpos : 0 < d.length := List.length_pos.mpr hd
  have hupos : 0 < u.length := List.length_pos.mpr hu
  set s : Str := '[' :: d ++ ']' :: '(' :: u ++ [')'] with hs
  have hslen : s.length = d.length + u.length + 4 := by
    simp only [hs, List.length_cons, List.length_append, List.length_nil]
    omega
  have hsplit1 : s = ('[' :: d) ++ (']' :: '(' :: u ++ [')']) := by simp [hs]
  have hsplitA : s = ('[' :: d ++ [']']) ++ ('(' :: u ++ [')']) := by simp [hs]
  have hsplitLast : s = ('[' :: d ++ ']' :: '(' :: u) ++ [')'] := by simp [hs]
  have hlast : lastIdxOf ')' s = some (d.length + u.length + 3) := by
    rw [hsplitLast, lastIdxOf_concat,
      show ('[' :: d ++ ']' :: '(' :: u).length = d.length + u.length + 3 by
        simp only [List.length_cons, List.length_append, List.length_nil]; omega]
  have hAt1 : isAt s (d.length + 1) ']' = true := by
    rw [hsplit1, isAt_append_right _ _ _ (by simp only [List.length_cons]; omega)]
    rw [show d.length + 1 - ('[' :: d).length = 0 by simp only [List.length_cons]; omega]
    simp [isAt]
  have hAt2 : isAt s (d.length + 1 + 1) '(' = true := by
    rw [hsplitA, isAt_append_right _ _ _
      (by simp only [List.length_cons, List.length_append, List.length_singleton, List.length_nil]; omega)]
    rw [show d.length + 1 + 1 - ('[' :: d ++ [']']).length = 0 by
      simp only [List.length_cons, List.length_append, List.length_singleton, List.length_nil]; omega]
    simp [isAt]
  have hnm : (']' : Char) ∉ ('(' :: u ++ [')'] : Str) := by
    intro hmem
    rcases List.mem_cons.mp hmem with h1 | h2
    · exact absurd h1 (by decide)
    · rcases List.mem_append.mp h2 with h3 | h4
      · exact hru h3
      · exact absurd (List.mem_singleton.mp h4) (by decide)
  have hvj : inlineViable s 0 (d.length + 1) = true := by
    unfold inlineViable
    rw [hAt1, hAt2, hlast]
    simp only [Bool.and_true, Bool.true_and, Bool.and_eq_true, decide_eq_true_eq]
    omega
  have hnv : ∀ j, d.length + 1 < j → inlineViable s 0 j = false := by
    intro j hj
    have hfalse : isAt s j ']' = false := by
      rw [hsplitA, isAt_append_right _ _ _
        (by simp only [List.length_cons, List.length_append, List.length_singleton, List.length_nil]; omega)]
      exact isAt_false_of_not_mem _ _ _ hnm
    unfold inlineViable
    rw [hfalse]
    simp
  have hfg : findGreatest (inlineViable s 0) s.length = some (d.length + 1) := by
    apply findGreatest_eq_some
    · omega
    · exact hvj
    · intro j h1 _; exact hnv j h1
  have hp0 : (isAt s 0 '[' && (findGreatest (inlineViable s 0) s.length).isSome) = true := by
    rw [hfg]
    simp [isAt, hs]
  have hfl : findLeast
      (fun i => isAt s i '[' && (findGreatest (inlineViable s i) s.length).isSome)
      s.length = some 0 := findLeast_eq_zero _ _ (by omega) hp0
  unfold MD_LINK_INLINE_cap1 extractGroup1
  rw [hfl, Option.some_bind, hfg, Option.some_bind]
  unfold strSlice
  rw [List.drop_zero, show d.length + 1 + 1 - 0 = d.length + 2 by omega,
    hsplitA, List.take_left' (by
      simp only [List.length_cons, List.length_append, List.length_singleton,
        List.length_nil])]

/-- In `'[' :: r ++ [']']` with no `']'` inside `r`, the only position
holding `']'` is the final one. -/
theorem bracket_close_pos (r : Str) (hrr : ']' ∉ r) (m : Nat)
    (h : isAt ('[' :: r ++ [']']) m ']' = true) : m = r.length + 1 := by
  unfold isAt at h
  match m with
  | 0 => simp at h
  | m + 1 =>
    simp only [List.getElem?_append, List.getElem?_cons_succ, List.length_cons] at h
    by_cases hm : m < r.length
    · rw [if_pos (by omega : m + 1 < r.length + 1)] at h
      simp only [beq_iff_eq] at h
      exact absurd (List.getElem?_mem h) hrr
    · rw [if_neg (by omega : ¬m + 1 < r.length + 1)] at h
      rw [show m + 1 - (r.length + 1) = m - r.length by omega] at h
      match hsub : m - r.length with
      | 0 => omega
      | k + 1 =>
        rw [hsub] at h
        simp at h

/-- On a well-formed reference or collapsed link slice `[d][r]` (non-empty
display, no `]` inside the reference label, which may be empty), the greedy
group 1 of `MD_LINK_REFERENCE` is exactly the bracketed display text. -/
theorem MD_LINK_REFERENCE_cap1_wf (d r : Str) (hd : d ≠ []) (hrr : ']' ∉ r) :
    MD_LINK_REFERENCE_cap1 ('[' :: d ++ ']' :: '[' :: r ++ [']']) =
      some ('[' :: d ++ [']']) := by
  have hdpos : 0 < d.length := List.length_pos.mpr hd
  set s : Str := '[' :: d ++ ']' :: '[' :: r ++ [']'] with hs
  have hslen : s.length = d.length + r.length + 4 := by
    simp only [hs, List.length_cons, List.length_append, List.length_nil]
    omega
  have hsplit1 : s = ('[' :: d) ++ (']' :: '[' :: r ++ [']']) := by simp [hs]
  have hsplitA : s = ('[' :: d ++ [']']) ++ ('[' :: r ++ [']']) := by simp [hs]
  have hsplitLast : s = ('[' :: d ++ ']' :: '[' :: r) ++ [']'] := by simp [hs]
  have hlast : lastIdxOf ']' s = some (d.length + r.length + 3) := by
    rw [hsplitLast, lastIdxOf_concat,
      show ('[' :: d ++ ']' :: '[' :: r).length = d.length + r.length + 3 by
        simp only [List.length_cons, List.length_append, List.length_nil]; omega]
  have hAt1 : isAt s (d.length + 1) ']' = true := by
    rw [hsplit1, isAt_append_right _ _ _ (by simp only [List.length_cons]; omega)]
    rw [show d.length + 1 - ('[' :: d).length = 0 by simp only [List.length_cons]; omega]
    simp [isAt]
  have hAt2 : isAt s (d.length + 1 + 1) '[' = true := by
    rw [hsplitA, isAt_append_right _ _ _
      (by simp only [List.length_cons, List.length_append, List.length_singleton,
        List.length_nil]; omega)]
    rw [show d.length + 1 + 1 - ('[' :: d ++ [']']).length = 0 by
      simp only [List.length_cons, List.length_append, List.length_singleton,
        List.length_nil]; omega]
    simp [isAt]
  have hvj : refViable s 0 (d.length + 1) = true := by
    unfold refViable
    rw [hAt1, hAt2, hlast]
    simp only [Bool.and_true, Bool.true_and, Bool.and_eq_true, decide_eq_true_eq]
    omega
  have hnv : ∀ j, d.length + 1 < j → refViable s 0 j = false := by
    intro j hj
    by_cases hjl : isAt s j ']' = true
    · have hjval : j = d.length + r.length + 3 := by
        rw [hsplitA, isAt_append_right _ _ _ (by
          simp only [List.length_cons, List.length_append, List.length_singleton,
            List.length_nil]; omega)] at hjl
        have hpos := bracket_close_pos r hrr _ hjl
        simp only [List.length_cons, List.length_append, List.length_singleton,
          List.length_nil] at hpos
        omega
      have hnone : isAt s (j + 1) '[' = false := by
        unfold isAt
        rw [List.getElem?_eq_none (by omega)]
        rfl
      unfold refViable
      rw [hnone]
      simp
    · have hjf : isAt s j ']' = false := by simpa using hjl
      unfold refViable
      rw [hjf]
      simp
  have hfg : findGreatest (refViable s 0) s.length = some (d.length + 1) := by
    apply findGreatest_eq_some
    · omega
    · exact hvj
    · intro j h1 _; exact hnv j h1
  have hp0 : (isAt s 0 '[' && (findGreatest (refViable s 0) s.length).isSome) = true := by
    rw [hfg]
    simp [isAt, hs]
  have hfl : findLeast
      (fun i => isAt s i '[' && (findGreatest (refViable s i) s.length).isSome)
      s.length = some 0 := findLeast_eq_zero _ _ (by omega) hp0
  unfold MD_LINK_REFERENCE_cap1 extractGroup1
  rw [hfl, Option.some_bind, hfg, Option.some_bind]
  unfold strSlice
  rw [List.drop_zero, show d.length + 1 + 1 - 0 = d.length + 2 by omega,
    hsplitA, List.take_left' (by
      simp only [List.length_cons, List.length_append, List.length_singleton,
        List.length_nil])]

/-- On a well-formed shortcut link slice `[d]` (non-empty display), the
greedy group 1 of `MD_LINK_SHORTCUT` is the whole slice. -/
theorem MD_LINK_SHORTCUT_cap1_wf (d : Str) (hd : d ≠ []) :
    MD_LINK_SHORTCUT_cap1 ('[' :: d ++ [']']) = some ('[' :: d ++ [']']) := by
  have hdpos : 0 < d.length := List.length_pos.mpr hd
  set s : Str := '[' :: d ++ [']'] with hs
  have hslen : s.length = d.length + 2 := by
    simp only [hs, List.length_cons, List.length_append, List.length_singleton,
      List.length_nil]
  have hsplitLast : s = ('[' :: d) ++ [']'] := by simp [hs]
  have hAt1 : isAt s (d.length + 1) ']' = true := by
    rw [hsplitLast, isAt_append_right _ _ _ (by simp only [List.length_cons]; omega)]
    rw [show d.length + 1 - ('[' :: d).length = 0 by simp only [List.length_cons]; omega]
    simp [isAt]
  have hvj : shortcutViable s 0 (d.length + 1) = true := by
    unfold shortcutViable
    rw [hAt1]
    simp only [Bool.and_true, decide_eq_true_eq]
    omega
  have hfg : findGreatest (shortcutViable s 0) s.length = some (d.length + 1) := by
    apply findGreatest_eq_some
    · omega
    · exact hvj
    · intro j h1 h2; exact absurd h2 (by omega)
  have hp0 : (isAt s 0 '[' && (findGreatest (shortcutViable s 0) s.length).isSome) = true := by
    rw [hfg]
    simp [isAt, hs]
  have hfl : findLeast
      (fun i => isAt s i '[' && (findGreatest (shortcutViable s i) s.length).isSome)
      s.length = some 0 := findLeast_eq_zero _ _ (by omega) hp0
  unfold MD_LINK_SHORTCUT_cap1 extractGroup1
  rw [hfl, Option.some_bind, hfg, Option.some_bind]
  unfold strSlice
  rw [List.drop_zero, show d.length + 1 + 1 - 0 = s.length by omega, List.take_length]

/-- **C4**: For every candidate link of inline, reference, collapsed or
shortcut style whose slice is well-formed (non-empty display text `d`; for
inline links a non-empty destination `u` with no `]`; for reference links a
label `r` with no `]`, empty for collapsed links), the display text extracted
by `compute_replacements` — capture group 1 of the style-specific regex,
`extractDisplay` — is exactly the original bracketed display text `[d]`,
byte-identical, regardless of style; and the rewriter emits it as an
inline-style link, the display text followed by the new destination in
parentheses (`inlineLinkText`). -/
theorem C4_display_text_preservation (d u r : Str) (hd : d ≠ []) (hu : u ≠ [])
    (hru : ']' ∉ u) (hrr : ']' ∉ r) :
    extractDisplay .inline ('[' :: d ++ ']' :: '(' :: u ++ [')']) =
      some ('[' :: d ++ [']']) ∧
    extractDisplay .reference ('[' :: d ++ ']' :: '[' :: r ++ [']']) =
      some ('[' :: d ++ [']']) ∧
    extractDisplay .collapsed ('[' :: d ++ ']' :: '[' :: ([] : Str) ++ [']']) =
      some ('[' :: d ++ [']']) ∧
    extractDisplay .shortcut ('[' :: d ++ [']']) = some ('[' :: d ++ [']']) ∧
    ∀ urlText : Str, inlineLinkText ('[' :: d ++ [']']) urlText =
      ('[' :: d ++ [']']) ++ '(' :: (urlText ++ [')']) :=
  ⟨MD_LINK_INLINE_cap1_wf d u hd hu hru,
   MD_LINK_REFERENCE_cap1_wf d r hd hrr,
   MD_LINK_REFERENCE_cap1_wf d [] hd (by simp),
   MD_LINK_SHORTCUT_cap1_wf d hd,
   fun _ => rfl⟩

theorem C4_display_text_preservation_witness :
    ("foo".toList ≠ ([] : Str)) ∧ ("bar".toList ≠ ([] : Str)) ∧
    extractDisplay .inline ("[foo](bar)".toList) = some ("[foo]".toList) := by
  refine ⟨by decide, by decide, ?_⟩
  have h := C4_display_text_preservation ("foo".toList) ("bar".toList)
    ("ref".toList) (by decide) (by decide) (by decide) (by decide)
  exact h.1

/-! ### Claim C5: descending-order splicing equals independent recombination -/

/-- Spans `[rstart, rstop)` of two replacements do not overlap. -/
def ReplDisjoint (a b : Repl) : Prop :=
  a.rstop ≤ b.rstart ∨ b.rstop ≤ a.rstart

instance : DecidableRel ReplDisjoint := fun a b => by
  unfold ReplDisjoint
  infer_instance

/-- Sequential application to one buffer: the per-chapter loop of
`std_links` splices each replacement into the evolving buffer in list order
(here with the final destination already in the `url` field). -/
def applySplices (content : Str) (rs : List Repl) : Str :=
  rs.foldl
    (fun acc x => replaceRange acc x.rstart x.rstop (inlineLinkText x.mdLink x.url))
    content

/-- Independent per-span application recombined by original range, for spans
listed in ascending order: keep `content[pos..x.rstart)` untouched, apply the
replacement to an independent copy of its own span, and continue after
`x.rstop`. -/
def recombine (content : Str) : Nat → List Repl → Str
  | pos, [] => content.drop pos
  | pos, x :: rest =>
    (content.drop pos).take (x.rstart - pos) ++
      replaceRange (strSlice content x.rstart x.rstop) 0 (x.rstop - x.rstart)
        (inlineLinkText x.mdLink x.url) ++
      recombine content x.rstop rest

/-- Ascending, non-empty, in-bounds, pairwise-disjoint spans starting at or
after `pos`. -/
def ChainedAsc (len : Nat) : Nat → List Repl → Prop
  | _, [] => True
  | pos, x :: rest =>
    pos ≤ x.rstart ∧ x.rstart < x.rstop ∧ x.rstop ≤ len ∧ ChainedAsc len x.rstop rest

/-- Replacing the whole of an independent copy of the span yields the new
text. -/
theorem replaceRange_own_span (content : Str) (a b : Nat) (new : Str)
    (_hab : a ≤ b) (_hb : b ≤ content.length) :
    replaceRange (strSlice content a b) 0 (b - a) new = new := by
  unfold replaceRange strSlice
  rw [List.take_zero, List.nil_append,
    List.drop_eq_nil_of_le (by rw [List.length_take, List.length_drop]; omega),
    List.append_nil]

/-- Applying chained ascending replacements right-to-left (the first listed
is spliced last) touches nothing below `pos` and equals the recombination. -/
theorem foldr_splice (content : Str) :
    ∀ (rs : List Repl) (pos : Nat), ChainedAsc content.length pos rs →
      rs.foldr
        (fun x acc =>
          replaceRange acc x.rstart x.rstop (inlineLinkText x.mdLink x.url))
        content =
      content.take pos ++ recombine content pos rs := by
  intro rs
  induction rs with
  | nil =>
    intro pos _
    simp [recombine]
  | cons x rest ih =>
    intro pos h
    obtain ⟨h1, h2, h3, h4⟩ := h
    have hA : ((content.take x.rstop) ++ recombine content x.rstop rest).take x.rstart =
        content.take x.rstart := by
      rw [List.take_append_of_le_length (by rw [List.length_take]; omega),
        List.take_take, Nat.min_eq_left (by omega)]
    have hB : ((content.take x.rstop) ++ recombine content x.rstop rest).drop x.rstop =
        recombine content x.rstop rest := by
      rw [List.drop_left' (by rw [List.length_take]; omega)]
    have hC : content.take pos ++ (content.drop pos).take (x.rstart - pos) =
        content.take x.rstart := by
      rw [← List.take_add, show pos + (x.rstart - pos) = x.rstart by omega]
    simp only [List.foldr_cons]
    rw [ih x.rstop h4]
    simp only [recombine]
    rw [replaceRange_own_span content x.rstart x.rstop _ (by omega) h3]
    rw [show replaceRange (content.take x.rstop ++ recombine content x.rstop rest)
        x.rstart x.rstop (inlineLinkText x.mdLink x.url) =
        (content.take x.rstop ++ recombine content x.rstop rest).take x.rstart ++
        inlineLinkText x.mdLink x.url ++
        (content.take x.rstop ++ recombine content x.rstop rest).drop x.rstop from rfl]
    rw [hA, hB, ← hC]
    simp [List.append_assoc]

/-- Pairwise-chained spans with bounds give `ChainedAsc`. -/
theorem chainedAsc_of_pairwise (len : Nat) :
    ∀ (l : List Repl) (pos : Nat),
      l.Pairwise (fun u v => u.rstop ≤ v.rstart) →
      (∀ x ∈ l, x.rstart < x.rstop ∧ x.rstop ≤ len) →
      (∀ x ∈ l, pos ≤ x.rstart) → ChainedAsc len pos l := by
  intro l
  induction l with
  | nil => intro pos _ _ _; trivial
  | cons x rest ih =>
    intro pos hp hb hpos
    rw [List.pairwise_cons] at hp
    refine ⟨hpos x (List.mem_cons_self _ _), (hb x (List.mem_cons_self _ _)).1,
      (hb x (List.mem_cons_self _ _)).2, ?_⟩
    exact ih x.rstop hp.2 (fun y hy => hb y (List.mem_cons_of_mem _ hy))
      (fun y hy => hp.1 y hy)

/-- **C5**: Within one document, the sorted replacement list
(`sortReplacements`, the descending sort at the end of
`compute_replacements`) is in strictly descending span-start order, and
applying the non-overlapping replacements to the one buffer in that order
(`applySplices`) produces the same result as applying each replacement to an
independent copy of its own span and recombining the pieces by original
range (`recombine`, over the spans in ascending order). -/
theorem C5_bottom_up_replacement (content : Str) (rs : List Repl)
    (hb : ∀ x ∈ rs, x.rstart < x.rstop ∧ x.rstop ≤ content.length)
    (hd : rs.Pairwise ReplDisjoint) :
    (sortReplacements rs).Pairwise (fun a b => b.rstart < a.rstart) ∧
    applySplices content (sortReplacements rs) =
      recombine content 0 ((sortReplacements rs).reverse) := by
  have hperm : (sortReplacements rs).Perm rs := List.perm_insertionSort ReplLE rs
  have hsorted : List.Sorted ReplLE (sortReplacements rs) :=
    List.sorted_insertionSort ReplLE rs
  have hb' : ∀ x ∈ sortReplacements rs,
      x.rstart < x.rstop ∧ x.rstop ≤ content.length :=
    fun x hx => hb x (hperm.mem_iff.mp hx)
  have hd' : (sortReplacements rs).Pairwise ReplDisjoint :=
    (hperm.pairwise_iff (fun h => Or.symm h)).mpr hd
  have hstrict : (sortReplacements rs).Pairwise (fun a b => b.rstart < a.rstart) := by
    refine List.Pairwise.imp_of_mem (fun {a b} ha hbm hab => ?_)
      (List.Pairwise.and hsorted hd')
    obtain ⟨hle, hdisj⟩ := hab
    have hA := hb' a ha
    have hB := hb' b hbm
    unfold ReplLE at hle
    unfold ReplDisjoint at hdisj
    omega
  have hchain : (sortReplacements rs).Pairwise (fun a b => b.rstop ≤ a.rstart) := by
    refine List.Pairwise.imp_of_mem (fun {a b} ha hbm hab => ?_)
      (List.Pairwise.and hstrict hd')
    obtain ⟨hlt, hdisj⟩ := hab
    have hA := hb' a ha
    have hB := hb' b hbm
    unfold ReplDisjoint at hdisj
    omega
  have hrev : ((sortReplacements rs).reverse).Pairwise
      (fun u v => u.rstop ≤ v.rstart) := by
    rw [List.pairwise_reverse]
    exact hchain
  have hchained : ChainedAsc content.length 0 ((sortReplacements rs).reverse) :=
    chainedAsc_of_pairwise content.length _ 0 hrev
      (fun x hx => hb' x (List.mem_reverse.mp hx)) (fun x _ => Nat.zero_le _)
  refine ⟨hstrict, ?_⟩
  have hfold : applySplices content (sortReplacements rs) =
      ((sortReplacements rs).reverse).foldr
        (fun x acc =>
          replaceRange acc x.rstart x.rstop (inlineLinkText x.mdLink x.url))
        content := by
    unfold applySplices
    conv_lhs => rw [← List.reverse_reverse (sortReplacements rs)]
    rw [List.foldl_reverse]
  rw [hfold, foldr_splice content _ 0 hchained]
  simp

/-- Concrete replacement list for the C5 witness. -/
def c5rs : List Repl :=
  [⟨"[x]".toList, "u".toList, 2, 5⟩, ⟨"[y]".toList, "v".toList, 7, 10⟩]

theorem C5_bottom_up_replacement_witness :
    (∀ x ∈ c5rs, x.rstart < x.rstop ∧ x.rstop ≤ ("ab[x]cd[y]ef".toList : Str).length) ∧
    c5rs.Pairwise ReplDisjoint ∧
    applySplices ("ab[x]cd[y]ef".toList) (sortReplacements c5rs) =
      recombine ("ab[x]cd[y]ef".toList) 0 ((sortReplacements c5rs).reverse) :=
  ⟨by decide, by decide,
   (C5_bottom_up_replacement ("ab[x]cd[y]ef".toList) c5rs (by decide) (by decide)).2⟩
